import Mathlib

/-!
Verification of the Smart-Imaginer generation workflow: the daily quota
tracker (`src/utils/rateLimit.ts`), the generation orchestration in
`src/App.tsx` (`performGeneration`, `handleGenerate`, `handleExtend`)
and the outbound instruction text built by the Gemini service wrappers.

Shallow embedding conventions:
  * `localStorage` under the single quota key is the `StoredQuota` state:
    absent, present-but-unparseable (`JSON.parse` throws), or a parsed
    record `{date, count}`.  JavaScript numbers that occur here are
    integers, embedded as `Int` (counts) or `Nat` (epoch milliseconds).
  * Functions that read the storage but never call `setItem` return the
    storage unchanged in their result pair.
  * The asynchronous Gemini call is an opaque parameter of type
    `Except String GeminiImageResponse`: `.ok` is a resolved response,
    `.error` a rejected promise whose message is the payload.
  * JavaScript `String.prototype.split` with a one-character separator is
    `splitChar`; the regex `/:(.*?);/` is `matchColonSemi`.
-/

/-! ## String splitting (JavaScript `split` with a one-character separator) -/

/-- JavaScript `s.split(sep)` for a single-character separator: always
returns at least one (possibly empty) segment. -/
def splitChar (sep : Char) : List Char → List (List Char)
  | [] => [[]]
  | x :: xs =>
    if x = sep then [] :: splitChar sep xs
    else
      match splitChar sep xs with
      | [] => [[x]]
      | y :: ys => (x :: y) :: ys

theorem splitChar_ne_nil (sep : Char) (l : List Char) : splitChar sep l ≠ [] := by
  cases l with
  | nil => simp [splitChar]
  | cons x xs =>
    simp only [splitChar]
    split
    · simp
    · split
      · simp
      · simp

/-- Every segment produced by `splitChar` is free of the separator. -/
theorem splitChar_not_mem (sep : Char) (l : List Char) :
    ∀ p ∈ splitChar sep l, sep ∉ p := by
  induction l with
  | nil => intro p hp; simp [splitChar] at hp; simp [hp]
  | cons x xs ih =>
    intro p hp
    simp only [splitChar] at hp
    split at hp
    · rcases List.mem_cons.mp hp with hp | hp
      · simp [hp]
      · exact ih p hp
    · rename_i hx
      split at hp
      · rename_i hsp
        exact absurd hsp (splitChar_ne_nil sep xs)
      · rename_i y ys hsp
        rcases List.mem_cons.mp hp with hp | hp
        · subst hp
          intro hmem
          rcases List.mem_cons.mp hmem with h | h
          · exact hx h.symm
          · exact ih y (hsp ▸ List.mem_cons_self y ys) h
        · exact ih p (hsp ▸ List.mem_cons_of_mem y hp)

/-- Joining the segments with the separator recovers the original list. -/
theorem splitChar_join (sep : Char) (l : List Char) :
    List.intercalate [sep] (splitChar sep l) = l := by
  induction l with
  | nil => simp [splitChar, List.intercalate]
  | cons x xs ih =>
    simp only [splitChar]
    by_cases hx : x = sep
    · subst hx
      simp only [if_pos rfl]
      rcases hsp : splitChar x xs with _ | ⟨y, ys⟩
      · exact absurd hsp (splitChar_ne_nil x xs)
      · rw [hsp] at ih
        simp [List.intercalate, List.intersperse] at ih ⊢
        simp [ih]
    · simp only [if_neg hx]
      rcases hsp : splitChar sep xs with _ | ⟨y, ys⟩
      · exact absurd hsp (splitChar_ne_nil sep xs)
      · rw [hsp] at ih
        cases ys with
        | nil => simpa [List.intercalate, List.intersperse] using congrArg (x :: ·) ih
        | cons z zs =>
          simp [List.intercalate, List.intersperse] at ih ⊢
          simp [ih]

/-- If the separator does not occur in `xs`, the split of
`xs ++ sep :: ys` starts with the segment `xs`. -/
theorem splitChar_append (sep : Char) (xs ys : List Char) (h : sep ∉ xs) :
    splitChar sep (xs ++ sep :: ys) = xs :: splitChar sep ys := by
  induction xs with
  | nil => simp [splitChar]
  | cons x xs ih =>
    have hx : x ≠ sep := fun hxe => h (hxe ▸ List.mem_cons_self x xs)
    have hxs : sep ∉ xs := fun hm => h (List.mem_cons_of_mem x hm)
    have hrec : splitChar sep (xs ++ sep :: ys) = xs :: splitChar sep ys := ih hxs
    simp only [List.cons_append, splitChar, if_neg hx]
    split
    · rename_i hsp
      have hsp' : splitChar sep (xs ++ sep :: ys) = [] := hsp
      rw [hrec] at hsp'
      exact absurd hsp' (by simp)
    · rename_i y ys' hsp
      have hsp' : splitChar sep (xs ++ sep :: ys) = y :: ys' := hsp
      rw [hrec] at hsp'
      injection hsp' with h1 h2
      rw [← h1, ← h2]

/-! ## Quota tracker (`src/utils/rateLimit.ts`) -/

/-- `MAX_GENERATIONS_PER_DAY` from `rateLimit.ts`. -/
def MAX_GENERATIONS_PER_DAY : Int := 20

/-- The `RateLimitData` interface: `{ date: string; count: number }`. -/
structure RateLimitData where
  date : String
  count : Int
deriving DecidableEq, Repr

/-- The contents of `localStorage` under the quota key: no record, a value
on which `JSON.parse` throws (or that parses to something other than an
object, whose missing `date` field never equals today), or a parsed
record. -/
inductive StoredQuota where
  | absent : StoredQuota
  | corrupt : StoredQuota
  | record (date : String) (count : Int) : StoredQuota
deriving DecidableEq, Repr

/-- `getRateLimitData`: read the stored record; keep it only when it parses
and its `date` equals today, otherwise return the fresh record
`{date: today, count: 0}`.  The `catch` branch (corrupt data) also falls
through to the fresh record. -/
def getRateLimitData (store : StoredQuota) (today : String) : RateLimitData :=
  match store with
  | .record d c => if d = today then ⟨d, c⟩ else ⟨today, 0⟩
  | _ => ⟨today, 0⟩

/-- `setRateLimitData`: serialize the record into the quota key. -/
def setRateLimitData (d : RateLimitData) : StoredQuota :=
  .record d.date d.count

/-- Today's persisted count as `getRateLimitData` reports it. -/
def quotaCount (store : StoredQuota) (today : String) : Int :=
  (getRateLimitData store today).count

/-- `canGenerate`: reads the record and compares the count with the daily
maximum; performs no write, so the storage component of the result is the
input storage. -/
def canGenerate (store : StoredQuota) (today : String) : Bool × StoredQuota :=
  ((getRateLimitData store today).count < MAX_GENERATIONS_PER_DAY, store)

/-- `incrementGenerationCount`: below the ceiling, write the record back
with the count increased by one; at or above it, write nothing. -/
def incrementGenerationCount (store : StoredQuota) (today : String) : StoredQuota :=
  let data := getRateLimitData store today
  if data.count < MAX_GENERATIONS_PER_DAY then
    setRateLimitData { data with count := data.count + 1 }
  else
    store

/-- `getRemainingGenerations`: the difference to the ceiling, floored at
zero; performs no write. -/
def getRemainingGenerations (store : StoredQuota) (today : String) : Int × StoredQuota :=
  let remaining := MAX_GENERATIONS_PER_DAY - (getRateLimitData store today).count
  (if remaining > 0 then remaining else 0, store)

theorem getRateLimitData_date (store : StoredQuota) (today : String) :
    (getRateLimitData store today).date = today := by
  cases store with
  | record d c =>
    by_cases h : d = today
    · simp [getRateLimitData, h]
    · simp [getRateLimitData, h]
  | absent => rfl
  | corrupt => rfl

/-! ## The current day string (`getTodayString` in `rateLimit.ts`)

`getTodayString` is `new Date().toISOString().split('T')[0]`.  A JavaScript
`Date` is an instant: milliseconds since the Unix epoch together with the
client's timezone offset.  `toISOString` formats the instant in UTC as
`YYYY-MM-DDTHH:MM:SS.mmmZ`; we embed it for the non-negative epoch range
(all real dates from 1970 on), with the standard civil-from-days
conversion producing the year, month and day. -/

/-- A JavaScript `Date` value: epoch milliseconds plus the client's local
timezone offset in minutes (local wall-clock time is
`epochMs + tzOffsetMin * 60000`). -/
structure Instant where
  epochMs : Nat
  tzOffsetMin : Int
deriving DecidableEq, Repr

/-- The decimal digit character of `n % 10`. -/
def decDigit (n : Nat) : Char := Char.ofNat (48 + n % 10)

/-- Decimal digits of `n`, most significant first; the first argument is
recursion fuel (`natDigits` passes `n` itself, which is enough since each
step divides by ten). -/
def natDigitsAux : Nat → Nat → List Char
  | 0, n => [decDigit n]
  | fuel + 1, n =>
    if n < 10 then [decDigit n] else natDigitsAux fuel (n / 10) ++ [decDigit n]

def natDigits (n : Nat) : List Char := natDigitsAux n n

/-- Zero-pad on the left to `k` characters. -/
def padZeros (k : Nat) (l : List Char) : List Char :=
  List.replicate (k - l.length) '0' ++ l

def pad2 (n : Nat) : List Char := padZeros 2 (natDigits n)
def pad3 (n : Nat) : List Char := padZeros 3 (natDigits n)
def pad4 (n : Nat) : List Char := padZeros 4 (natDigits n)

/-- Gregorian (year, month, day) of a day count since 1970-01-01
(the standard civil-from-days algorithm, restricted to non-negative day
counts where all divisions are on non-negative numbers). -/
def civilFromDays (z : Nat) : Nat × Nat × Nat :=
  let zz := z + 719468
  let era := zz / 146097
  let doe := zz % 146097
  let yoe := (doe - doe / 1460 + doe / 36524 - doe / 146096) / 365
  let y := yoe + era * 400
  let doy := doe - (365 * yoe + yoe / 4 - yoe / 100)
  let mp := (5 * doy + 2) / 153
  let d := doy - (153 * mp + 2) / 5 + 1
  let m := if mp < 10 then mp + 3 else mp - 9
  (if m ≤ 2 then y + 1 else y, m, d)

/-- `YYYY-MM-DD` for a (year, month, day) triple. -/
def isoDateChars : Nat × Nat × Nat → List Char
  | (y, m, d) => pad4 y ++ '-' :: (pad2 m ++ '-' :: pad2 d)

/-- The date part of `toISOString`: the UTC calendar date of the instant. -/
def utcDateChars (ms : Nat) : List Char :=
  isoDateChars (civilFromDays (ms / 86400000))

/-- `Date.prototype.toISOString`: `YYYY-MM-DDTHH:MM:SS.mmmZ`, all fields in
UTC; the timezone offset plays no part. -/
def toISOChars (ms : Nat) : List Char :=
  utcDateChars ms ++
    'T' :: (pad2 (ms % 86400000 / 3600000) ++
      ':' :: (pad2 (ms % 3600000 / 60000) ++
        ':' :: (pad2 (ms % 60000 / 1000) ++
          '.' :: (pad3 (ms % 1000) ++ ['Z']))))

/-- `getTodayString` from `rateLimit.ts`:
`new Date().toISOString().split('T')[0]` — index 0 of the split, which is
its head (a split result is never empty). -/
def getTodayString (now : Instant) : String :=
  String.mk ((splitChar 'T' (toISOChars now.epochMs)).headD [])

/-- Modelled from the spec: "calendar date (YYYY-MM-DD, local)" — the
client's local calendar date, i.e. the date of the instant shifted by the
client's timezone offset.  Stated for comparison with `getTodayString`;
defined on instants whose local time is non-negative. -/
def localCalendarDateString (now : Instant) : String :=
  String.mk (isoDateChars (civilFromDays
    (((now.epochMs : Int) + now.tzOffsetMin * 60000).toNat / 86400000)))

theorem char_ofNat_digit_ne_T (k : Nat) (h : k < 10) : Char.ofNat (48 + k) ≠ 'T' := by
  interval_cases k <;> decide

theorem decDigit_ne_T (n : Nat) : decDigit n ≠ 'T' :=
  char_ofNat_digit_ne_T (n % 10) (Nat.mod_lt _ (by norm_num))

theorem natDigitsAux_ne_T (fuel n : Nat) : 'T' ∉ natDigitsAux fuel n := by
  induction fuel generalizing n with
  | zero =>
    intro hmem
    simp [natDigitsAux] at hmem
    exact decDigit_ne_T n hmem.symm
  | succ f ih =>
    intro hmem
    simp only [natDigitsAux] at hmem
    split at hmem
    · simp at hmem
      exact decDigit_ne_T n hmem.symm
    · rcases List.mem_append.mp hmem with h | h
      · exact ih (n / 10) h
      · simp at h
        exact decDigit_ne_T n h.symm


theorem padZeros_natDigits_ne_T (k n : Nat) : 'T' ∉ padZeros k (natDigits n) := by
  intro hmem
  rcases List.mem_append.mp hmem with h | h
  · exact absurd (List.eq_of_mem_replicate h) (by decide)
  · exact natDigitsAux_ne_T n n h

theorem isoDateChars_ne_T (t : Nat × Nat × Nat) : 'T' ∉ isoDateChars t := by
  obtain ⟨y, m, d⟩ := t
  intro hmem
  simp only [isoDateChars, pad4, pad2] at hmem
  rcases List.mem_append.mp hmem with h | h
  · exact padZeros_natDigits_ne_T 4 y h
  · rcases List.mem_cons.mp h with h | h
    · exact absurd h (by decide)
    · rcases List.mem_append.mp h with h | h
      · exact padZeros_natDigits_ne_T 2 m h
      · rcases List.mem_cons.mp h with h | h
        · exact absurd h (by decide)
        · exact padZeros_natDigits_ne_T 2 d h

theorem utcDateChars_ne_T (ms : Nat) : 'T' ∉ utcDateChars ms :=
  isoDateChars_ne_T _

theorem toISOChars_decomp (ms : Nat) : toISOChars ms = utcDateChars ms ++
    'T' :: (pad2 (ms % 86400000 / 3600000) ++
      ':' :: (pad2 (ms % 3600000 / 60000) ++
        ':' :: (pad2 (ms % 60000 / 1000) ++
          '.' :: (pad3 (ms % 1000) ++ ['Z'])))) := rfl

/-- Splitting the full ISO string on `'T'` recovers exactly the UTC date
part: `getTodayString` is the UTC calendar date of the instant. -/
theorem getTodayString_eq_utc (now : Instant) :
    getTodayString now = String.mk (utcDateChars now.epochMs) := by
  have h := splitChar_append 'T' (utcDateChars now.epochMs)
    (pad2 (now.epochMs % 86400000 / 3600000) ++
      ':' :: (pad2 (now.epochMs % 3600000 / 60000) ++
        ':' :: (pad2 (now.epochMs % 60000 / 1000) ++
          '.' :: (pad3 (now.epochMs % 1000) ++ ['Z']))))
    (utcDateChars_ne_T now.epochMs)
  unfold getTodayString
  rw [toISOChars_decomp now.epochMs, h, List.headD_cons]

/-! ## Data model (`src/types.ts` and `src/App.tsx`) -/

/-- `ImageFile` from `types.ts`. -/
structure ImageFile where
  base64 : String
  mimeType : String
deriving DecidableEq, Repr

/-- `OriginalImage` from `App.tsx`: an `ImageFile` with a display name and
an object-URL preview. -/
structure OriginalImage extends ImageFile where
  name : String
  previewUrl : String
deriving DecidableEq, Repr

/-- `GeminiImageResponse` from `types.ts`: the service's response shape. -/
structure GeminiImageResponse where
  base64 : String
  mimeType : String
deriving DecidableEq, Repr

/-- `HistoryEntry` from `types.ts`. -/
structure HistoryEntry where
  id : String
  imageUrl : String
  fileName : String
  date : String
deriving DecidableEq, Repr

/-- The `AspectRatio` union type: `'1:1' | '16:9' | '9:16'`. -/
inductive AspectRatio where
  | r1x1 : AspectRatio
  | r16x9 : AspectRatio
  | r9x16 : AspectRatio
deriving DecidableEq, Repr

/-- The string carried by each `AspectRatio` variant. -/
def aspectRatioText : AspectRatio → String
  | .r1x1 => "1:1"
  | .r16x9 => "16:9"
  | .r9x16 => "9:16"

/-! ## Gemini service (`src/services/geminiService.ts`)

Both service functions build `fullPrompt` from the same template literal;
each is embedded from its own copy in the source.  The network call itself is
external. -/

/-- `fullPrompt` as built inside `editImageWithGemini`: the template
literal spanning source lines 17–22, with its literal newlines and
indentation. -/
def editFullPrompt (prompt negativePrompt : String) (aspectRatio : AspectRatio) : String :=
  "\n    " ++ prompt ++ ".\n    Generate the image in a " ++
    aspectRatioText aspectRatio ++
    " aspect ratio.\n    Negative prompt: " ++ negativePrompt ++
    ", blurry, ugly, distorted, text, watermark, low quality, bad anatomy.\n    Ensure the resulting image is high quality and photorealistic.\n  "

/-- `fullPrompt` as built inside `createImageWithGemini` (an identical
template literal, lines 74–79). -/
def createFullPrompt (prompt negativePrompt : String) (aspectRatio : AspectRatio) : String :=
  "\n    " ++ prompt ++ ".\n    Generate the image in a " ++
    aspectRatioText aspectRatio ++
    " aspect ratio.\n    Negative prompt: " ++ negativePrompt ++
    ", blurry, ugly, distorted, text, watermark, low quality, bad anatomy.\n    Ensure the resulting image is high quality and photorealistic.\n  "

/-- Modelled from the spec: the outbound instruction text convention of
§6, quoted verbatim — a single line with single spaces between the
sentences.  Stated for comparison with the `fullPrompt` the code builds. -/
def specInstructionText (prompt negativePrompt : String) (aspectRatio : AspectRatio) : String :=
  prompt ++ ". Generate the image in a " ++ aspectRatioText aspectRatio ++
    " aspect ratio. Negative prompt: " ++ negativePrompt ++
    ", blurry, ugly, distorted, text, watermark, low quality, bad anatomy. Ensure the resulting image is high quality and photorealistic."

/-! ## Workflow orchestration (`src/App.tsx`) -/

/-- The ambient clock values a single `performGeneration` run reads:
`getTodayString()` for the quota functions, `new Date().toISOString()`,
`new Date().toLocaleString()` and `Date.now()` for the history entry and
file name. -/
structure Env where
  today : String
  nowIso : String
  nowLocale : String
  nowMs : Nat
deriving DecidableEq, Repr

/-- The component state of `App` (the `useState` hooks that the claims
concern) together with the persisted quota storage. -/
structure AppState where
  originalImage : Option OriginalImage
  generatedImage : Option String
  prompt : String
  negativePrompt : String
  aspectRatio : AspectRatio
  isLoading : Bool
  error : Option String
  rating : Nat
  history : List HistoryEntry
  remainingGenerations : Int
  quota : StoredQuota
deriving DecidableEq, Repr

/-- The quota-exceeded message `performGeneration` surfaces. -/
def dailyLimitMessage : String :=
  "You have reached the daily limit of 20 generations. Please try again tomorrow."

/-- The `||` fallback of the catch branch: `e.message || '…'`. -/
def fallbackErrorMessage : String := "An unexpected error occurred."

/-- `editPrompt.slice(0, 20).replace(/\s/g, '_')` from the created-image
file name. -/
def createSlug (editPrompt : String) : String :=
  String.mk ((editPrompt.toList.take 20).map (fun c => if c.isWhitespace then '_' else c))

/-- `performGeneration` from `App.tsx` (lines 35–78).  The awaited service
call is the parameter `svc`; a synchronous throw inside the async service
function also surfaces as a rejected promise, i.e. `.error`.  The
`finally` block returns `isLoading` to `false` on every path past the
quota check. -/
def performGeneration (editPrompt negPrompt : String) (aspect : AspectRatio)
    (imageToEdit : Option OriginalImage) (svc : Except String GeminiImageResponse)
    (env : Env) (st : AppState) : AppState :=
  if !(canGenerate st.quota env.today).1 then
    { st with error := some dailyLimitMessage }
  else
    let st1 := { st with isLoading := true, error := none, rating := 0 }
    match svc with
    | .ok result =>
      let fileName := match imageToEdit with
        | some img => "edited-" ++ img.name
        | none => "created-" ++ createSlug editPrompt ++ "-" ++ toString env.nowMs ++ ".png"
      let imageUrl := "data:" ++ result.mimeType ++ ";base64," ++ result.base64
      let quota2 := incrementGenerationCount st1.quota env.today
      let entry : HistoryEntry :=
        { id := env.nowIso, imageUrl := imageUrl, fileName := fileName, date := env.nowLocale }
      { st1 with
          generatedImage := some imageUrl,
          quota := quota2,
          remainingGenerations := (getRemainingGenerations quota2 env.today).1,
          history := entry :: st1.history,
          isLoading := false }
    | .error e =>
      { st1 with error := some (if e = "" then fallbackErrorMessage else e), isLoading := false }

/-- JavaScript `String.prototype.trim`: drop whitespace from both ends
(used by the `!prompt.trim()` validation; the empty string is the only
falsy trim result). -/
def jsTrim (s : String) : String :=
  String.mk (((s.toList.dropWhile Char.isWhitespace).reverse.dropWhile
    Char.isWhitespace).reverse)

/-- `handleGenerate` from `App.tsx`: the empty-prompt validation, then the
generation path on the current prompt state. -/
def handleGenerate (svc : Except String GeminiImageResponse) (env : Env)
    (st : AppState) : AppState :=
  if jsTrim st.prompt = "" then { st with error := some "Please enter a prompt." }
  else
    performGeneration st.prompt st.negativePrompt st.aspectRatio st.originalImage
      svc env { st with generatedImage := none }

/-! ## Extend (`handleExtend` in `App.tsx`, lines 146–184) -/

/-- The lazy part of `/:(.*?);/` after a matched `':'`: the shortest run of
non-newline characters up to a `';'`; `none` when no `';'` is reachable
(`.` does not match a newline). -/
def tryCapture : List Char → Option (List Char)
  | [] => none
  | c :: cs =>
    if c = ';' then some []
    else if c = '\n' then none
    else (tryCapture cs).map (c :: ·)

/-- `header.match(/:(.*?);/)`: the leftmost position whose `':'` is
followed (lazily, without crossing a newline) by a `';'`; the capture is
the text between them. -/
def matchColonSemi : List Char → Option (List Char)
  | [] => none
  | c :: cs =>
    if c = ':' then
      match tryCapture cs with
      | some r => some r
      | none => matchColonSemi cs
    else matchColonSemi cs

/-- The decomposition at the top of `handleExtend`: split the displayable
reference on `','`; fewer than two segments is the first early return, a
header without a `/:(.*?);/` match the second; otherwise the media type is
the capture and the encoded payload is the segment at index 1. -/
def decomposeImageRef (gen : String) : Except String (String × String) :=
  match splitChar ',' gen.toList with
  | header :: base64Data :: _ =>
    match matchColonSemi header with
    | some mime => .ok (String.mk mime, String.mk base64Data)
    | none => .error "Could not determine image type for extension."
  | _ => .error "Invalid image format for extension."

/-- The fixed continuation prompt constant of `handleExtend`. -/
def extendPrompt : String :=
  "Generate the next natural progression of the scene. Ensure No existing objects overlap or blur, don't duplicate same characters. Also don't add new objects without the real need as it will change the scene dynamics. dont change the theme, have some variation with the angle movement by some degrees or zoomin naturally. Look at the probable action the characters can do and change the next scene accordingly"

/-- `handleExtend` from `App.tsx`: guard, decomposition, state swap, then
the generation path in edit mode on the swapped state. -/
def handleExtend (svc : Except String GeminiImageResponse) (env : Env)
    (st : AppState) : AppState :=
  match st.generatedImage with
  | none => st
  | some gen =>
    if st.isLoading then st
    else
      match decomposeImageRef gen with
      | .error e => { st with error := some e }
      | .ok (mimeType, base64Data) =>
        let newOriginalImage : OriginalImage :=
          { base64 := base64Data, mimeType := mimeType,
            name := "extended-" ++ (match st.originalImage with
              | some o => o.name
              | none => "image.png"),
            previewUrl := gen }
        let st2 := { st with
          originalImage := some newOriginalImage,
          generatedImage := none,
          prompt := extendPrompt,
          negativePrompt := "",
          error := none }
        performGeneration extendPrompt "" st.aspectRatio (some newOriginalImage) svc env st2

/-! ## Helper lemmas -/

/-- If the separator does not occur at all, the split is the one whole
segment. -/
theorem splitChar_eq_single (sep : Char) (l : List Char) (h : sep ∉ l) :
    splitChar sep l = [l] := by
  induction l with
  | nil => rfl
  | cons x xs ih =>
    have hx : x ≠ sep := fun hxe => h (hxe ▸ List.mem_cons_self x xs)
    have hxs : sep ∉ xs := fun hm => h (List.mem_cons_of_mem x hm)
    simp only [splitChar, if_neg hx, ih hxs]

theorem intercalate_cons₂ (sep a b : List Char) (l : List (List Char)) :
    List.intercalate sep (a :: b :: l) = a ++ sep ++ List.intercalate sep (b :: l) := by
  simp [List.intercalate, List.intersperse]

theorem intercalate_single (sep a : List Char) :
    List.intercalate sep [a] = a := by
  simp [List.intercalate, List.intersperse]

/-- `canGenerate` answers exactly "today's count is below the ceiling". -/
theorem canGenerate_iff (q : StoredQuota) (d : String) :
    (canGenerate q d).1 = true ↔ quotaCount q d < MAX_GENERATIONS_PER_DAY := by
  simp [canGenerate, quotaCount]

/-- Below the ceiling, consuming writes back exactly count + 1 for today. -/
theorem quotaCount_increment (q : StoredQuota) (d : String)
    (h : quotaCount q d < MAX_GENERATIONS_PER_DAY) :
    quotaCount (incrementGenerationCount q d) d = quotaCount q d + 1 := by
  have h' : (getRateLimitData q d).count < MAX_GENERATIONS_PER_DAY := h
  simp only [incrementGenerationCount, h', if_true, setRateLimitData]
  rw [getRateLimitData_date q d]
  simp [quotaCount, getRateLimitData]

/-- At or above the ceiling, consuming writes nothing. -/
theorem increment_noop (q : StoredQuota) (d : String)
    (h : ¬ quotaCount q d < MAX_GENERATIONS_PER_DAY) :
    incrementGenerationCount q d = q := by
  have h' : ¬ (getRateLimitData q d).count < MAX_GENERATIONS_PER_DAY := h
  simp only [incrementGenerationCount, h', if_false]

/-! ## Claims about the quota tracker -/

/-- C3: on every read, an absent record, a corrupt record, and a record for
any day other than today (past or future) are all discarded for the fresh
record `{day: today, count: 0}`; in particular a record for 2024-03-05 with
count 20 read on 2024-03-06 reads as count 0 and `canGenerate` is true. -/
theorem quota_read_discards_stale (today d : String) (c : Int) (hne : d ≠ today) :
    getRateLimitData .absent today = ⟨today, 0⟩ ∧
    getRateLimitData .corrupt today = ⟨today, 0⟩ ∧
    getRateLimitData (.record d c) today = ⟨today, 0⟩ ∧
    getRateLimitData (.record "2024-03-05" 20) "2024-03-06" = ⟨"2024-03-06", 0⟩ ∧
    (canGenerate (.record "2024-03-05" 20) "2024-03-06").1 = true := by
  refine ⟨rfl, rfl, ?_, by decide, by decide⟩
  simp [getRateLimitData, hne]

theorem quota_read_discards_stale_witness :
    ("2024-03-05" : String) ≠ "2024-03-06" ∧
    getRateLimitData (.record "2024-03-05" 20) "2024-03-06" = ⟨"2024-03-06", 0⟩ :=
  ⟨by decide,
   (quota_read_discards_stale "2024-03-06" "2024-03-05" 20 (by decide)).2.2.1⟩

/-- C4: `canGenerate` is true exactly when today's count is strictly below
20 and returns the storage unwritten; `getRemainingGenerations` equals
`max 0 (20 - count)` and also returns the storage unwritten. -/
theorem canGenerate_remaining_spec (q : StoredQuota) (d : String) :
    ((canGenerate q d).1 = true ↔ quotaCount q d < 20) ∧
    (canGenerate q d).2 = q ∧
    (getRemainingGenerations q d).1 = max 0 (20 - quotaCount q d) ∧
    (getRemainingGenerations q d).2 = q := by
  refine ⟨canGenerate_iff q d, rfl, ?_, rfl⟩
  show (if 20 - quotaCount q d > 0 then 20 - quotaCount q d else 0) = _
  rcases le_or_lt (20 - quotaCount q d) 0 with h | h
  · rw [if_neg (not_lt.mpr h), max_eq_left h]
  · rw [if_pos h, max_eq_right (le_of_lt h)]

/-- C5: consuming increments today's count by exactly 1 when it is below
20, is a no-op on the storage once the count is 20, and preserves the
invariant 0 ≤ count ≤ 20; the read-only operations write nothing. -/
theorem consume_preserves_invariant (q : StoredQuota) (d : String) :
    (quotaCount q d < 20 →
      quotaCount (incrementGenerationCount q d) d = quotaCount q d + 1) ∧
    (quotaCount q d = 20 →
      incrementGenerationCount q d = q ∧
      quotaCount (incrementGenerationCount q d) d = 20) ∧
    (0 ≤ quotaCount q d → quotaCount q d ≤ 20 →
      0 ≤ quotaCount (incrementGenerationCount q d) d ∧
      quotaCount (incrementGenerationCount q d) d ≤ 20) ∧
    (canGenerate q d).2 = q ∧ (getRemainingGenerations q d).2 = q := by
  refine ⟨fun h => quotaCount_increment q d h, fun h => ?_, fun h0 h20 => ?_, rfl, rfl⟩
  · have hno : incrementGenerationCount q d = q :=
      increment_noop q d (by rw [h]; exact lt_irrefl _)
    exact ⟨hno, by rw [hno, h]⟩
  · rcases lt_or_eq_of_le h20 with hlt | heq
    · rw [quotaCount_increment q d hlt]
      constructor <;> omega
    · rw [increment_noop q d (by rw [heq]; exact lt_irrefl _), heq]
      norm_num

theorem consume_preserves_invariant_witness :
    quotaCount (.record "2024-03-06" 20) "2024-03-06" = 20 ∧
    incrementGenerationCount (.record "2024-03-06" 20) "2024-03-06"
      = .record "2024-03-06" 20 :=
  ⟨by decide,
   ((consume_preserves_invariant (.record "2024-03-06" 20) "2024-03-06").2.1
     (by decide)).1⟩

/-! ## Claims about the generation workflow -/

/-- A sample clock for witnesses. -/
def sampleEnv : Env :=
  { today := "2024-01-01", nowIso := "2024-01-01T00:00:00.000Z",
    nowLocale := "1/1/2024, 12:00:00 AM", nowMs := 1704067200000 }

/-- A sample idle application state for witnesses. -/
def sampleState : AppState :=
  { originalImage := none, generatedImage := none, prompt := "",
    negativePrompt := "", aspectRatio := .r1x1, isLoading := false,
    error := none, rating := 0, history := [], remainingGenerations := 20,
    quota := .absent }

/-- C1: every failed attempt — empty-prompt validation in
`handleGenerate`, the quota-exceeded early return, and a service error —
leaves the persisted quota storage and the history ledger unchanged. -/
theorem failed_generation_frame (svc : Except String GeminiImageResponse)
    (env : Env) (st : AppState) (p n : String) (a : AspectRatio)
    (img : Option OriginalImage) :
    (jsTrim st.prompt = "" →
      (handleGenerate svc env st).quota = st.quota ∧
      (handleGenerate svc env st).history = st.history) ∧
    ((canGenerate st.quota env.today).1 = false →
      (performGeneration p n a img svc env st).quota = st.quota ∧
      (performGeneration p n a img svc env st).history = st.history) ∧
    (∀ e : String,
      (performGeneration p n a img (.error e) env st).quota = st.quota ∧
      (performGeneration p n a img (.error e) env st).history = st.history) := by
  refine ⟨fun h => ?_, fun h => ?_, fun e => ?_⟩
  · simp [handleGenerate, h]
  · simp [performGeneration, h]
  · unfold performGeneration
    split
    · exact ⟨rfl, rfl⟩
    · exact ⟨rfl, rfl⟩

theorem failed_generation_frame_witness :
    jsTrim sampleState.prompt = "" ∧
    (handleGenerate (.error "boom") sampleEnv sampleState).quota = sampleState.quota ∧
    (handleGenerate (.error "boom") sampleEnv sampleState).history = sampleState.history :=
  ⟨by decide,
   ((failed_generation_frame (.error "boom") sampleEnv sampleState
      "p" "n" .r1x1 none).1 (by decide)).1,
   ((failed_generation_frame (.error "boom") sampleEnv sampleState
      "p" "n" .r1x1 none).1 (by decide)).2⟩

/-- C2: an attempt that passes the quota check (today's count < 20) and
receives a successful response increments today's persisted count by
exactly 1, prepends exactly one history entry leaving the existing entries
unchanged, and ends with the error state cleared. -/
theorem successful_generation_effects (p n : String) (a : AspectRatio)
    (img : Option OriginalImage) (r : GeminiImageResponse) (env : Env)
    (st : AppState) (hq : (canGenerate st.quota env.today).1 = true) :
    quotaCount (performGeneration p n a img (.ok r) env st).quota env.today
      = quotaCount st.quota env.today + 1 ∧
    (∃ entry, (performGeneration p n a img (.ok r) env st).history
      = entry :: st.history) ∧
    (performGeneration p n a img (.ok r) env st).error = none := by
  have hlt : quotaCount st.quota env.today < MAX_GENERATIONS_PER_DAY :=
    (canGenerate_iff st.quota env.today).mp hq
  unfold performGeneration
  rw [hq]
  refine ⟨?_, ⟨_, rfl⟩, rfl⟩
  exact quotaCount_increment st.quota env.today hlt

theorem successful_generation_effects_witness :
    (canGenerate sampleState.quota sampleEnv.today).1 = true ∧
    quotaCount (performGeneration "p" "" .r1x1 none
        (.ok ⟨"QUJD", "image/png"⟩) sampleEnv sampleState).quota sampleEnv.today
      = quotaCount sampleState.quota sampleEnv.today + 1 ∧
    (performGeneration "p" "" .r1x1 none
        (.ok ⟨"QUJD", "image/png"⟩) sampleEnv sampleState).error = none :=
  ⟨by decide,
   (successful_generation_effects "p" "" .r1x1 none ⟨"QUJD", "image/png"⟩
      sampleEnv sampleState (by decide)).1,
   (successful_generation_effects "p" "" .r1x1 none ⟨"QUJD", "image/png"⟩
      sampleEnv sampleState (by decide)).2.2⟩

/-! ## Claims about the quota day and the outbound instruction text -/

/-- C6 counterexample: at the instant 2024-01-01T23:30:00Z seen by a
client whose local time is two hours ahead of UTC, the stored day is the
UTC date 2024-01-01 while the client's local calendar date is already
2024-01-02 — the stored day is not the local calendar date. -/
theorem getTodayString_not_local :
    getTodayString ⟨1704151800000, 120⟩ = "2024-01-01" ∧
    localCalendarDateString ⟨1704151800000, 120⟩ = "2024-01-02" ∧
    getTodayString ⟨1704151800000, 120⟩
      ≠ localCalendarDateString ⟨1704151800000, 120⟩ :=
  ⟨by decide, by decide, by decide⟩

/-- C6 (amended): the day stored in the quota record and compared on every
read is the UTC calendar date in YYYY-MM-DD form (the date part of
`toISOString`), independent of the client's timezone offset — quota
rollover is attributed by the UTC day, not the local calendar day. -/
theorem getTodayString_is_utc_date (now : Instant) (off : Int) :
    getTodayString now = String.mk (utcDateChars now.epochMs) ∧
    getTodayString { now with tzOffsetMin := off } = getTodayString now :=
  ⟨getTodayString_eq_utc now, rfl⟩

/-- C7 counterexample: already at prompt "a cat", negative prompt "blurry"
and aspect ratio 1:1, the instruction text the code builds differs from
the single-line string the claim quotes (the code's template literal keeps
its newlines and indentation). -/
theorem fullPrompt_not_single_line :
    editFullPrompt "a cat" "blurry" .r1x1
      ≠ specInstructionText "a cat" "blurry" .r1x1 ∧
    createFullPrompt "a cat" "blurry" .r1x1
      ≠ specInstructionText "a cat" "blurry" .r1x1 :=
  ⟨by decide, by decide⟩

/-- C7 (amended): in both create and edit modes the outbound instruction
text is exactly the template-literal string — a leading newline plus
four-space indentation, the claimed sentences separated by newline plus
four-space indentation, and a trailing newline plus two spaces:
`"\n    <promptText>.\n    Generate the image in a <aspectRatio> aspect
ratio.\n    Negative prompt: <negativePromptText>, blurry, ugly,
distorted, text, watermark, low quality, bad anatomy.\n    Ensure the
resulting image is high quality and photorealistic.\n  "`. -/
theorem fullPrompt_template (p n : String) (a : AspectRatio) :
    editFullPrompt p n a = createFullPrompt p n a ∧
    editFullPrompt p n a =
      "\n    " ++ p ++ ".\n    Generate the image in a " ++
        aspectRatioText a ++
        " aspect ratio.\n    Negative prompt: " ++ n ++
        ", blurry, ugly, distorted, text, watermark, low quality, bad anatomy.\n    Ensure the resulting image is high quality and photorealistic.\n  " :=
  ⟨rfl, rfl⟩

/-! ## Claims about extend -/

/-- The `newOriginalImage` record `handleExtend` builds from a successful
decomposition of the displayed generated image. -/
def extendImage (st : AppState) (gen mime b64 : String) : OriginalImage :=
  { base64 := b64, mimeType := mime,
    name := "extended-" ++ (match st.originalImage with
      | some o => o.name
      | none => "image.png"),
    previewUrl := gen }

/-- Once the split has at least two segments, the decomposition is decided
by the media-type match on the first segment, with the payload taken from
the second. -/
theorem decomposeImageRef_cons (gen : String) (header b64 : List Char)
    (rest : List (List Char))
    (h : splitChar ',' gen.toList = header :: b64 :: rest) :
    decomposeImageRef gen = match matchColonSemi header with
      | some mime => .ok (String.mk mime, String.mk b64)
      | none => .error "Could not determine image type for extension." := by
  unfold decomposeImageRef
  rw [h]

/-- C8: the example reference decomposes to media type `image/png` and
payload `AAAA`; a reference without a comma (fewer than two segments)
fails, a header without a `:<mediaType>;` match fails with the
media-type error, and on every decomposition failure `handleExtend` only
sets the error message — the prior original and generated images are
untouched. -/
theorem extend_format_cases (svc : Except String GeminiImageResponse)
    (env : Env) (st : AppState) (gen e : String) :
    decomposeImageRef "data:image/png;base64,AAAA" = .ok ("image/png", "AAAA") ∧
    (',' ∉ gen.toList → ∃ msg, decomposeImageRef gen = .error msg) ∧
    (∀ header b64 rest, splitChar ',' gen.toList = header :: b64 :: rest →
      matchColonSemi header = none →
      decomposeImageRef gen = .error "Could not determine image type for extension.") ∧
    (st.generatedImage = some gen → st.isLoading = false →
      decomposeImageRef gen = .error e →
      handleExtend svc env st = { st with error := some e }) := by
  refine ⟨rfl, fun h => ?_, fun header b64 rest hsp hm => ?_, fun h1 h2 h3 => ?_⟩
  · refine ⟨"Invalid image format for extension.", ?_⟩
    unfold decomposeImageRef
    rw [splitChar_eq_single ',' gen.toList h]
  · rw [decomposeImageRef_cons gen header b64 rest hsp, hm]
  · simp only [handleExtend, h1, h2, h3, Bool.false_eq_true, if_false]

theorem extend_format_cases_witness :
    ',' ∉ ("abc".toList) ∧
    decomposeImageRef "abc" = .error "Invalid image format for extension." ∧
    handleExtend (.error "x") sampleEnv
        { sampleState with generatedImage := some "abc" }
      = { sampleState with
            generatedImage := some "abc"
            error := some "Invalid image format for extension." } :=
  ⟨by decide, rfl,
   (extend_format_cases (.error "x") sampleEnv
      { sampleState with generatedImage := some "abc" }
      "abc" "Invalid image format for extension.").2.2.2 rfl rfl rfl⟩

/-- C9: on a successful decomposition, `handleExtend` installs the new
source image as the active input, clears the generated image, replaces
the prompt with the fixed continuation prompt, resets the negative prompt
to the empty string, clears the error, and then runs the generation path
in edit mode on that new source image. -/
theorem extend_success_state (svc : Except String GeminiImageResponse)
    (env : Env) (st : AppState) (gen mime b64 : String)
    (h1 : st.generatedImage = some gen) (h2 : st.isLoading = false)
    (h3 : decomposeImageRef gen = .ok (mime, b64)) :
    handleExtend svc env st =
      performGeneration extendPrompt "" st.aspectRatio
        (some (extendImage st gen mime b64)) svc env
        { st with
            originalImage := some (extendImage st gen mime b64)
            generatedImage := none
            prompt := extendPrompt
            negativePrompt := ""
            error := none } := by
  simp only [handleExtend, h1, h2, h3, Bool.false_eq_true, if_false, extendImage]

theorem extend_success_state_witness :
    ({ sampleState with generatedImage := some "data:image/png;base64,AAAA" }
        : AppState).generatedImage = some "data:image/png;base64,AAAA" ∧
    handleExtend (.error "x") sampleEnv
        { sampleState with generatedImage := some "data:image/png;base64,AAAA" }
      = performGeneration extendPrompt ""
          ({ sampleState with generatedImage := some "data:image/png;base64,AAAA" }
            : AppState).aspectRatio
          (some (extendImage
            { sampleState with generatedImage := some "data:image/png;base64,AAAA" }
            "data:image/png;base64,AAAA" "image/png" "AAAA"))
          (.error "x") sampleEnv
          { sampleState with
              generatedImage := none
              originalImage := some (extendImage
                { sampleState with generatedImage := some "data:image/png;base64,AAAA" }
                "data:image/png;base64,AAAA" "image/png" "AAAA")
              prompt := extendPrompt
              negativePrompt := ""
              error := none } :=
  ⟨rfl,
   extend_success_state (.error "x") sampleEnv
     { sampleState with generatedImage := some "data:image/png;base64,AAAA" }
     "data:image/png;base64,AAAA" "image/png" "AAAA" rfl rfl rfl⟩

/-- C10: when the displayed reference splits into three or more segments
(two or more commas), the decomposition's payload is exactly the segment
between the first and second commas — `split(',')` at index 1 — not the
whole text after the first comma; the two readings agree exactly when
that whole text contains no comma. -/
theorem extend_takes_second_segment (gen : String) (header b64 : List Char)
    (rest : List (List Char))
    (h : splitChar ',' gen.toList = header :: b64 :: rest) :
    gen.toList = header ++ ',' :: List.intercalate [','] (b64 :: rest) ∧
    (∀ mime data, decomposeImageRef gen = .ok (mime, data) → data = String.mk b64) ∧
    (rest ≠ [] →
      String.mk b64 ≠ String.mk (List.intercalate [','] (b64 :: rest))) ∧
    (String.mk b64 = String.mk (List.intercalate [','] (b64 :: rest)) ↔
      ',' ∉ List.intercalate [','] (b64 :: rest)) := by
  have hj := splitChar_join ',' gen.toList
  rw [h, intercalate_cons₂] at hj
  have hb64mem : b64 ∈ splitChar ',' gen.toList := by
    rw [h]; exact List.mem_cons_of_mem _ (List.mem_cons_self _ _)
  have hbnc : ',' ∉ b64 := splitChar_not_mem ',' gen.toList b64 hb64mem
  refine ⟨?_, fun mime data hok => ?_, fun hne heq => ?_, ?_, ?_⟩
  · rw [← hj]; simp
  · rw [decomposeImageRef_cons gen header b64 rest h] at hok
    rcases hm : matchColonSemi header with _ | r
    · rw [hm] at hok; exact absurd hok (by simp)
    · rw [hm] at hok
      simp only [Except.ok.injEq, Prod.mk.injEq] at hok
      exact hok.2.symm
  · rcases rest with _ | ⟨r, rs⟩
    · exact hne rfl
    · rw [intercalate_cons₂] at heq
      have hdata := congrArg String.data heq
      simp only [String.data] at hdata
      have hlen := congrArg List.length hdata
      simp [List.length_append] at hlen
  · intro heq
    have hdata := congrArg String.data heq
    simp only [String.data] at hdata
    rw [← hdata]
    exact hbnc
  · intro hnc
    rcases rest with _ | ⟨r, rs⟩
    · rw [intercalate_single]
    · exfalso
      apply hnc
      rw [intercalate_cons₂]
      simp

theorem extend_takes_second_segment_witness :
    splitChar ',' ("a:b;,XX,YY".toList)
      = ['a', ':', 'b', ';'] :: ['X', 'X'] :: [['Y', 'Y']] ∧
    "a:b;,XX,YY".toList
      = ['a', ':', 'b', ';'] ++ ',' :: List.intercalate [','] (['X', 'X'] :: [['Y', 'Y']]) ∧
    String.mk ['X', 'X']
      ≠ String.mk (List.intercalate [','] (['X', 'X'] :: [['Y', 'Y']])) :=
  ⟨by decide,
   (extend_takes_second_segment "a:b;,XX,YY" ['a', ':', 'b', ';'] ['X', 'X']
      [['Y', 'Y']] (by decide)).1,
   (extend_takes_second_segment "a:b;,XX,YY" ['a', ':', 'b', ';'] ['X', 'X']
      [['Y', 'Y']] (by decide)).2.2.1 (by decide)⟩
